import Mathlib

/-!
Verification development for the whole-pattern-fit model components of
`py4DSTEM/process/wholepatternfit/wp_models.py`.

The diffraction pattern is a two-dimensional real array; we embed it as a
function on `Fin Nx × Fin Ny`.  Machine floats are modelled as real numbers;
`np.inf` bounds are modelled by `EReal`.  Each Python class becomes a Lean
structure holding its configuration (parameter offsets into the flat
parameter vector, retained peak lists, precomputed kernel transform), and
each forward/Jacobian method becomes a Lean function translated line by line
from the source.  Python dictionary lookups that can fail (`KeyError`)
are embedded as `Option`-valued lookups.
-/

namespace WPF

/-- A diffraction pattern: a 2D real array indexed by pixel. -/
def Pattern (Nx Ny : ℕ) : Type := Fin Nx × Fin Ny → ℝ

/-- The static (per-fit, read-only) context supplied to every model:
pixel coordinate meshes, the current global center, pattern dimensions.
Mirrors the `static_data` / keyword context of the source. -/
structure StaticData (Nx Ny : ℕ) where
  xArray : Fin Nx × Fin Ny → ℝ
  yArray : Fin Nx × Fin Ny → ℝ
  global_x0 : ℝ
  global_y0 : ℝ
  Q_Nx : ℝ
  Q_Ny : ℝ

/-- A scalar fit parameter (class `Parameter`): an initial value and a
lower/upper bound pair.  Bounds default to `-np.inf` / `np.inf`, modelled by
`⊥` / `⊤` in `EReal`.  The `offset` field of the Python class is a sentinel
(`np.nan`) until the composition engine (not part of this file's source)
assigns it, so the runtime views of the models below carry their offsets
separately. -/
structure Parameter where
  initial_value : ℝ
  lower_bound : EReal
  upper_bound : EReal

/-- `Parameter.__init__` on a scalar initial value with optional explicit
bounds.  The source performs no validation whatsoever: `set_params` stores
`initial_value`, `lower_bound if lower_bound is not None else -np.inf` and
`upper_bound if upper_bound is not None else np.inf`, and no exception can
be raised for any float inputs; in particular an inverted bound pair
(`lower_bound > upper_bound`) is stored as given. -/
def Parameter.init (v : ℝ) (lb ub : Option ℝ) : Parameter where
  initial_value := v
  lower_bound := match lb with
    | some l => (l : EReal)
    | none => ⊥
  upper_bound := match ub with
    | some u => (u : EReal)
    | none => ⊤

/-- `Parameter.__init__` on a `(value, ± tolerance)` pair: bounds derived as
`value - tolerance` / `value + tolerance` (the two-element iterable branch). -/
def Parameter.initPair (v tol : ℝ) : Parameter :=
  Parameter.init v (some (v - tol)) (some (v + tol))

/-!  ## The global coordinate model `_BaseModel` -/

/-- `_BaseModel`: the container for the two global center Parameters.  Its
`params` dict holds exactly `"x center"` and `"y center"`. -/
structure BaseModelM where
  params : List (String × Parameter)

/-- `_BaseModel.__init__`. -/
def BaseModelM.init (x0 y0 : ℝ) : BaseModelM :=
  ⟨[("x center", Parameter.init x0 none none),
    ("y center", Parameter.init y0 none none)]⟩

/-- `_BaseModel.func`: the body is `pass`; the accumulator is untouched. -/
def BaseModelM.func {Nx Ny : ℕ} (_m : BaseModelM) (_sd : StaticData Nx Ny)
    (_x : ℕ → ℝ) (DP : Pattern Nx Ny) : Pattern Nx Ny := DP

/-- `_BaseModel.jacobian` exists (hence `hasJacobian` is true) and its body is
`pass`: the Jacobian array is untouched.  We embed the method slot as an
`Option`-valued field, mirroring `getattr(self, "jacobian", None)`. -/
def BaseModelM.jacobianFn (Nx Ny : ℕ) :
    Option ((ℕ → Pattern Nx Ny) → (ℕ → Pattern Nx Ny)) :=
  some (fun J => J)

/-- `WPFModelPrototype.__init__` sets
`hasJacobian = getattr(self, "jacobian", None) is not None`. -/
def BaseModelM.hasJacobian (Nx Ny : ℕ) : Bool :=
  (BaseModelM.jacobianFn Nx Ny).isSome

/-!  ## `DCBackground` -/

/-- `DCBackground`: one parameter `"DC Level"`; we record the flat-vector
offset the engine assigned to it. -/
structure DCBackgroundM where
  dcLevelOff : ℕ

/-- The scalar `DCBackground.func` adds to every pixel. -/
def DCBackgroundM.contrib (m : DCBackgroundM) (x : ℕ → ℝ) : ℝ :=
  x m.dcLevelOff

/-- `DCBackground.func`: `DP += x[self.params["DC Level"].offset]`. -/
def DCBackgroundM.func {Nx Ny : ℕ} (m : DCBackgroundM) (_sd : StaticData Nx Ny)
    (x : ℕ → ℝ) (DP : Pattern Nx Ny) : Pattern Nx Ny :=
  fun p => DP p + x m.dcLevelOff

/-- `DCBackground.jacobian`: `J[:, offset] = 1` (assignment, not
accumulation, exactly as in the source). -/
def DCBackgroundM.jacobian {Nx Ny : ℕ} (m : DCBackgroundM)
    (J : ℕ → Pattern Nx Ny) : ℕ → Pattern Nx Ny :=
  fun j => if j = m.dcLevelOff then (fun _ => 1) else J j

/-!  ## Distance helper

`WPF._get_distance` lives in the engine class (`wp.py`), which is not part of
the source file under verification. -/

/-- Modelled from the spec: the composition engine's `_get_distance` helper
(`wp.py`, not in the source file) — the Euclidean pixel distance
`sqrt((xArray - x0)² + (yArray - y0)²)` where `x0`, `y0` are read from the
flat vector at the offsets of the given x/y center Parameters. -/
noncomputable def get_distance {Nx Ny : ℕ} (sd : StaticData Nx Ny)
    (x : ℕ → ℝ) (xcOff ycOff : ℕ) : Pattern Nx Ny :=
  fun p => Real.sqrt ((sd.xArray p - x xcOff) ^ 2 + (sd.yArray p - x ycOff) ^ 2)

/-!  ## `GaussianBackground` -/

/-- `GaussianBackground` runtime view: offsets of `"sigma"`, `"intensity"`,
`"x center"`, `"y center"` (the latter two possibly shared with the global
coordinate model — sharing means the same offset). -/
structure GaussianBackgroundM where
  sigmaOff : ℕ
  intensityOff : ℕ
  xCenterOff : ℕ
  yCenterOff : ℕ

/-- The per-pixel quantity `GaussianBackground.func` adds:
`level * np.exp(r**2 / (-2 * sigma**2))`. -/
noncomputable def GaussianBackgroundM.contrib {Nx Ny : ℕ}
    (m : GaussianBackgroundM) (sd : StaticData Nx Ny) (x : ℕ → ℝ) :
    Pattern Nx Ny :=
  fun p => x m.intensityOff *
    Real.exp ((get_distance sd x m.xCenterOff m.yCenterOff p) ^ 2 /
      (-2 * (x m.sigmaOff) ^ 2))

/-- `GaussianBackground.func`. -/
noncomputable def GaussianBackgroundM.func {Nx Ny : ℕ}
    (m : GaussianBackgroundM) (sd : StaticData Nx Ny) (x : ℕ → ℝ)
    (DP : Pattern Nx Ny) : Pattern Nx Ny :=
  fun p => DP p + m.contrib sd x p

/-!  ## `GaussianRing`

Its `params` dict registers the keys `"radius"`, `"sigma"`, `"intensity"`,
`"x center"`, `"y center"`, but `global_center_func` reads
`x[self.params["level"].offset]` — the key `"level"` is never registered, so
the lookup raises `KeyError` on every call (the function additionally
references the undefined global name `WPF`).  We embed the dict as an
association list and the forward function as `Option`-valued, returning
`none` where the Python code raises. -/

/-- String-keyed ordered parameter dictionary, as used by `GaussianRing`. -/
def lookupStr (ps : List (String × ℕ)) (k : String) : Option ℕ :=
  match ps with
  | [] => none
  | (k', v) :: rest => if k' = k then some v else lookupStr rest k

/-- `GaussianRing` runtime view: its registered parameter names with the
offsets the engine assigned. -/
structure GaussianRingM where
  params : List (String × ℕ)

/-- `GaussianRing.__init__`: registers exactly these five parameter keys,
in insertion order. -/
def GaussianRingM.init (radOff sigOff intOff xcOff ycOff : ℕ) : GaussianRingM :=
  ⟨[("radius", radOff), ("sigma", sigOff), ("intensity", intOff),
    ("x center", xcOff), ("y center", ycOff)]⟩

/-- `GaussianRing.global_center_func`, translated with each `self.params[...]`
dict access as a fallible lookup, in source reading order: `"radius"`,
`"sigma"`, `"level"` (unregistered!), then the two center keys.  When every
lookup succeeds it would add `level * np.exp((r - radius)**2 / (-2*sigma**2))`;
the `"level"` lookup never succeeds, so the result is always `none`. -/
noncomputable def GaussianRingM.global_center_func {Nx Ny : ℕ}
    (m : GaussianRingM) (sd : StaticData Nx Ny) (x : ℕ → ℝ)
    (DP : Pattern Nx Ny) : Option (Pattern Nx Ny) :=
  match lookupStr m.params "radius", lookupStr m.params "sigma",
      lookupStr m.params "level", lookupStr m.params "x center",
      lookupStr m.params "y center" with
  | some radOff, some sigOff, some levOff, some xcOff, some ycOff =>
      some (fun p => DP p + x levOff *
        Real.exp ((get_distance sd x xcOff ycOff p - x radOff) ^ 2 /
          (-2 * (x sigOff) ^ 2)))
  | _, _, _, _, _ => none

/-!  ## `SyntheticDiskLattice` — runtime view and forward/Jacobian -/

/-- `SyntheticDiskLattice` runtime view: offsets of the shared center, the
four lattice-vector scalars, the retained peaks in lock-step order with the
offsets of their `"[u,v] Intensity"` parameters, the refinement flags, the
fixed radius/width captured at construction, and the offsets of the
`"disk radius"` / `"edge width"` parameters (used only when refining). -/
structure SDLM where
  xCenterOff : ℕ
  yCenterOff : ℕ
  uxOff : ℕ
  uyOff : ℕ
  vxOff : ℕ
  vyOff : ℕ
  peaks : List (ℤ × ℤ × ℕ)
  refine_radius : Bool
  refine_width : Bool
  disk_radius : ℝ
  disk_width : ℝ
  diskRadiusOff : ℕ
  edgeWidthOff : ℕ

/-- `x[self.params["disk radius"].offset] if self.refine_radius else
self.disk_radius`. -/
def SDLM.diskRadiusVal (m : SDLM) (x : ℕ → ℝ) : ℝ :=
  if m.refine_radius then x m.diskRadiusOff else m.disk_radius

/-- `x[self.params["edge width"].offset] if self.refine_width else
self.disk_width`. -/
def SDLM.diskWidthVal (m : SDLM) (x : ℕ → ℝ) : ℝ :=
  if m.refine_width then x m.edgeWidthOff else m.disk_width

/-- The quantity one retained peak `(u,v)` adds to one pixel in
`SyntheticDiskLattice.func`:
`intensity / (1 + exp(min(4*(sqrt((xArray-x_pos)**2+(yArray-y_pos)**2)
 - disk_radius)/disk_width, 20)))`
with `x_pos = x0 + u*ux + v*vx`, `y_pos = y0 + u*uy + v*vy`. -/
noncomputable def SDLM.peakContrib {Nx Ny : ℕ} (m : SDLM)
    (sd : StaticData Nx Ny) (x : ℕ → ℝ) (u v : ℤ) (iOff : ℕ) :
    Pattern Nx Ny :=
  fun p =>
    x iOff /
      (1 + Real.exp (min
        (4 * (Real.sqrt
            ((sd.xArray p - (x m.xCenterOff + u * x m.uxOff + v * x m.vxOff)) ^ 2
              + (sd.yArray p - (x m.yCenterOff + u * x m.uyOff + v * x m.vyOff)) ^ 2)
          - m.diskRadiusVal x) / m.diskWidthVal x)
        20))

/-- The `for i, (u, v) in enumerate(zip(self.u_inds, self.v_inds))` loop of
`SyntheticDiskLattice.func`: each iteration does `DP += ...` in place. -/
noncomputable def SDLfuncLoop {Nx Ny : ℕ} (m : SDLM) (sd : StaticData Nx Ny)
    (x : ℕ → ℝ) : List (ℤ × ℤ × ℕ) → Pattern Nx Ny → Pattern Nx Ny
  | [], DP => DP
  | (u, v, iOff) :: rest, DP =>
      SDLfuncLoop m sd x rest (fun p => DP p + m.peakContrib sd x u v iOff p)

/-- `SyntheticDiskLattice.func`. -/
noncomputable def SDLM.func {Nx Ny : ℕ} (m : SDLM) (sd : StaticData Nx Ny)
    (x : ℕ → ℝ) (DP : Pattern Nx Ny) : Pattern Nx Ny :=
  SDLfuncLoop m sd x m.peaks DP

/-- Pixel-wise sum of the per-peak contributions (the total the forward
function adds). -/
noncomputable def SDLM.contrib {Nx Ny : ℕ} (m : SDLM) (sd : StaticData Nx Ny)
    (x : ℕ → ℝ) : Pattern Nx Ny :=
  fun p => (m.peaks.map (fun t => m.peakContrib sd x t.1 t.2.1 t.2.2 p)).sum

/-- `J[:, c] += g`: in-place accumulation into one Jacobian column. -/
def addCol {Nx Ny : ℕ} (J : ℕ → Pattern Nx Ny) (c : ℕ) (g : Pattern Nx Ny) :
    ℕ → Pattern Nx Ny :=
  fun j => if j = c then (fun p => J j p + g p) else J j

/-- One peak iteration of `SyntheticDiskLattice.jacobian`, translated
expression by expression from the source (`r` is the 0.5-clamped distance to
the *pattern center*, computed once outside the loop; numpy booleans used in
arithmetic become 0/1 indicators):

* `r_disk = np.maximum(5e-1, sqrt((xArray-x_pos)**2+(yArray-y_pos)**2))`
* `mask = r_disk < (2*disk_radius)`
* `top_exp = mask * np.exp(4*((mask*r_disk) - disk_radius)/disk_width)`
* `dx = 4*disk_intensity*(xArray-x_pos)*top_exp/((1+top_exp)**2*disk_width*r)`
* `dy` likewise with `yArray - y_pos`
* `J[:, x_center] += disk_intensity * dx` (and `y_center`, then the four
  lattice-vector columns scaled by `u`/`v`, the intensity column, and — when
  refining — the radius and width columns). -/
noncomputable def SDLjacPeak {Nx Ny : ℕ} (m : SDLM) (sd : StaticData Nx Ny)
    (x : ℕ → ℝ) (r : Pattern Nx Ny) (u v : ℤ) (iOff : ℕ)
    (J : ℕ → Pattern Nx Ny) : ℕ → Pattern Nx Ny :=
  let x_pos := x m.xCenterOff + u * x m.uxOff + v * x m.vxOff
  let y_pos := x m.yCenterOff + u * x m.uyOff + v * x m.vyOff
  let disk_intensity := x iOff
  let R := m.diskRadiusVal x
  let W := m.diskWidthVal x
  let r_disk : Pattern Nx Ny := fun p =>
    max (5e-1) (Real.sqrt ((sd.xArray p - x_pos) ^ 2 + (sd.yArray p - y_pos) ^ 2))
  let mask : Pattern Nx Ny := fun p => if r_disk p < 2 * R then 1 else 0
  let top_exp : Pattern Nx Ny := fun p =>
    mask p * Real.exp (4 * ((mask p * r_disk p) - R) / W)
  let dx : Pattern Nx Ny := fun p =>
    4 * disk_intensity * (sd.xArray p - x_pos) * top_exp p /
      ((1 + top_exp p) ^ 2 * W * r p)
  let dy : Pattern Nx Ny := fun p =>
    4 * disk_intensity * (sd.yArray p - y_pos) * top_exp p /
      ((1 + top_exp p) ^ 2 * W * r p)
  let J1 := addCol J m.xCenterOff (fun p => disk_intensity * dx p)
  let J2 := addCol J1 m.yCenterOff (fun p => disk_intensity * dy p)
  let J3 := addCol J2 m.uxOff (fun p => disk_intensity * u * dx p)
  let J4 := addCol J3 m.uyOff (fun p => disk_intensity * u * dy p)
  let J5 := addCol J4 m.vxOff (fun p => disk_intensity * v * dx p)
  let J6 := addCol J5 m.vyOff (fun p => disk_intensity * v * dy p)
  let J7 := addCol J6 iOff (fun p => mask p * (1 / (1 + top_exp p)))
  let J8 := if m.refine_radius then
      addCol J7 m.diskRadiusOff
        (fun p => 4 * disk_intensity * top_exp p / (W * (1 + top_exp p) ^ 2))
    else J7
  if m.refine_width then
    addCol J8 m.edgeWidthOff
      (fun p => 4 * disk_intensity * top_exp p * (r_disk p - R) /
        (W ^ 2 * (1 + top_exp p) ^ 2))
  else J8

/-- The per-peak loop of `SyntheticDiskLattice.jacobian`. -/
noncomputable def SDLjacLoop {Nx Ny : ℕ} (m : SDLM) (sd : StaticData Nx Ny)
    (x : ℕ → ℝ) (r : Pattern Nx Ny) :
    List (ℤ × ℤ × ℕ) → (ℕ → Pattern Nx Ny) → (ℕ → Pattern Nx Ny)
  | [], J => J
  | (u, v, iOff) :: rest, J =>
      SDLjacLoop m sd x r rest (SDLjacPeak m sd x r u v iOff J)

/-- `SyntheticDiskLattice.jacobian`:
`r = np.maximum(5e-1, WPF._get_distance(x, x_center, y_center))` followed by
the per-peak loop. -/
noncomputable def SDLM.jacobian {Nx Ny : ℕ} (m : SDLM) (sd : StaticData Nx Ny)
    (x : ℕ → ℝ) (J : ℕ → Pattern Nx Ny) : ℕ → Pattern Nx Ny :=
  SDLjacLoop m sd x
    (fun p => max (5e-1) (get_distance sd x m.xCenterOff m.yCenterOff p))
    m.peaks J

/-!  ## Construction-time peak generation and pruning

Shared by `SyntheticDiskLattice`, `KernelDiskLattice` and
`ComplexOverlapKernelDiskLattice`: `np.mgrid[-u_max:u_max+1, -v_max:v_max+1]`
ravelled row-major, a `delete_mask` built per candidate, and a final boolean
filter of the index arrays. -/

/-- The ravelled `np.mgrid[-u_max:u_max+1, -v_max:v_max+1]` candidate pairs,
`u` varying slowest (row-major ravel). -/
def candidatePairs (u_max v_max : ℕ) : List (ℤ × ℤ) :=
  ((List.range (2 * u_max + 1)).map (fun i : ℕ => (i : ℤ) - u_max)).flatMap
    (fun u => ((List.range (2 * v_max + 1)).map (fun j : ℕ => (j : ℤ) - v_max)).map
      (fun v => (u, v)))

open Classical in
/-- The `delete_mask` array: `True` where the candidate is excluded or
out of bounds. -/
noncomputable def pruneMask (del : ℤ × ℤ → Prop) (l : List (ℤ × ℤ)) :
    List Bool :=
  l.map (fun uv => if del uv then true else false)

/-- `self.u_inds = self.u_inds[~delete_mask]` (and `v_inds`): the candidates
surviving the boolean mask filter, in order. -/
noncomputable def pruneInds (del : ℤ × ℤ → Prop) (l : List (ℤ × ℤ)) :
    List (ℤ × ℤ) :=
  ((l.zip (pruneMask del l)).filter (fun t => !t.2)).map Prod.fst

open Classical in
/-- The `params` entries appended inside the candidate loop: for each
candidate not deleted, the entries `f uv` are appended (one Intensity entry;
for the coherent kernel lattice an Intensity and a Phase entry). -/
noncomputable def keptBind {α : Type} (del : ℤ × ℤ → Prop)
    (f : ℤ × ℤ → List α) : List (ℤ × ℤ) → List α
  | [] => []
  | uv :: rest => (if del uv then [] else f uv) ++ keptBind del f rest

/-- Construction arguments of `SyntheticDiskLattice.__init__` that matter for
peak generation (initial lattice vectors and center, pattern extent,
exclusion list, initial intensity, refinement flags, fixed radius/width). -/
structure SDLCfg where
  ux : ℝ
  uy : ℝ
  vx : ℝ
  vy : ℝ
  disk_radius : ℝ
  disk_width : ℝ
  u_max : ℕ
  v_max : ℕ
  intensity_0 : ℝ
  refine_radius : Bool
  refine_width : Bool
  x0 : ℝ
  y0 : ℝ
  exclude_indices : List (ℤ × ℤ)
  Q_Nx : ℝ
  Q_Ny : ℝ

/-- The predicted initial x of peak `(u,v)`:
`x0 + u*ux.initial_value + v*vx.initial_value`. -/
def SDLCfg.peakX (cfg : SDLCfg) (u v : ℤ) : ℝ :=
  cfg.x0 + u * cfg.ux + v * cfg.vx

/-- The predicted initial y of peak `(u,v)`. -/
def SDLCfg.peakY (cfg : SDLCfg) (u v : ℤ) : ℝ :=
  cfg.y0 + u * cfg.uy + v * cfg.vy

/-- The branch conditions marking candidate `(u,v)` for deletion:
`[u, v] in exclude_indices`, or
`(x < 0) or (x > Q_Nx) or (y < 0) or (y > Q_Ny)`. -/
def SDLCfg.deleted (cfg : SDLCfg) (uv : ℤ × ℤ) : Prop :=
  uv ∈ cfg.exclude_indices ∨
    cfg.peakX uv.1 uv.2 < 0 ∨ cfg.peakX uv.1 uv.2 > cfg.Q_Nx ∨
    cfg.peakY uv.1 uv.2 < 0 ∨ cfg.peakY uv.1 uv.2 > cfg.Q_Ny

/-- Keys of the `SyntheticDiskLattice` params dict.  The Python dict keys are
strings; the per-peak keys `f"[{u},{v}] Intensity"` are in bijection with the
index pairs, so we key them by the pair itself. -/
inductive SDLKey where
  | xCenter : SDLKey
  | yCenter : SDLKey
  | ux : SDLKey
  | uy : SDLKey
  | vx : SDLKey
  | vy : SDLKey
  | intensity (u v : ℤ) : SDLKey
  | diskRadius : SDLKey
  | edgeWidth : SDLKey
deriving DecidableEq

/-- What `SyntheticDiskLattice.__init__` builds: the retained index arrays
and the ordered params dict. -/
structure SDLBuilt where
  u_v_inds : List (ℤ × ℤ)
  params : List (SDLKey × Parameter)

open Classical in
/-- `SyntheticDiskLattice.__init__` with `include_indices is None` (the
generated-range branch): center and lattice-vector params, then one
`Parameter(intensity_0)` per candidate that is neither excluded nor outside
`[0, Q_Nx] × [0, Q_Ny]`, the `delete_mask` filter of the index arrays, and
optionally the shared radius/width params. -/
noncomputable def SDLbuildRange (cfg : SDLCfg) : SDLBuilt :=
  let cands := candidatePairs cfg.u_max cfg.v_max
  { u_v_inds := pruneInds cfg.deleted cands
    params :=
      [(SDLKey.xCenter, Parameter.init cfg.x0 none none),
       (SDLKey.yCenter, Parameter.init cfg.y0 none none),
       (SDLKey.ux, Parameter.init cfg.ux none none),
       (SDLKey.uy, Parameter.init cfg.uy none none),
       (SDLKey.vx, Parameter.init cfg.vx none none),
       (SDLKey.vy, Parameter.init cfg.vy none none)]
      ++ keptBind cfg.deleted
          (fun uv => [(SDLKey.intensity uv.1 uv.2,
            Parameter.init cfg.intensity_0 none none)]) cands
      ++ (if cfg.refine_radius then
            [(SDLKey.diskRadius, Parameter.init cfg.disk_radius none none)]
          else [])
      ++ (if cfg.refine_width then
            [(SDLKey.edgeWidth, Parameter.init cfg.disk_width none none)]
          else []) }

/-- Python dict assignment `params[k] = v`: when the key is already present
its entry is overwritten in place (insertion position preserved), otherwise
the pair is appended. -/
def dictInsert (ps : List (SDLKey × Parameter)) (k : SDLKey) (v : Parameter) :
    List (SDLKey × Parameter) :=
  if k ∈ ps.map Prod.fst then
    ps.map (fun e => if e.1 = k then (k, v) else e)
  else ps ++ [(k, v)]

/-- The key-insertion order of a Python dict fed the elements of the second
list in order, starting from the already-present keys `S`: a key's first
occurrence fixes its position, later duplicates only overwrite its value. -/
def dictKeyOrder : List (ℤ × ℤ) → List (ℤ × ℤ) → List (ℤ × ℤ)
  | S, [] => S
  | S, uv :: rest => dictKeyOrder (if uv ∈ S then S else S ++ [uv]) rest

/-- `SyntheticDiskLattice.__init__` with an explicit `include_indices` list.
The loop `for ind in include_indices:
params[f"[{ind[0]},{ind[1]}] Intensity"] = Parameter(intensity_0)` performs
**no** exclusion-list test and **no** bounds test, and a duplicate pair
overwrites its own dict entry (`dictInsert`; the per-peak keys never collide
with the six fixed keys inserted before the loop, so the dict is the fixed
prefix followed by the loop's entries, with the optional shared radius/width
keys registered after the loop).  The subsequent
`inds = np.array(include_indices); self.u_inds = inds[:, 0]` raises
`IndexError` when the list is empty (`np.array([])` is one-dimensional), so
construction fails there: the embedding is `Option`-valued, `none` for `[]`.
`u_inds`/`v_inds` are the columns of the list, duplicates included. -/
def SDLbuildInclude (cfg : SDLCfg)
    (include_indices : List (ℤ × ℤ)) : Option SDLBuilt :=
  if include_indices = [] then none
  else some
    { u_v_inds := include_indices
      params :=
        [(SDLKey.xCenter, Parameter.init cfg.x0 none none),
         (SDLKey.yCenter, Parameter.init cfg.y0 none none),
         (SDLKey.ux, Parameter.init cfg.ux none none),
         (SDLKey.uy, Parameter.init cfg.uy none none),
         (SDLKey.vx, Parameter.init cfg.vx none none),
         (SDLKey.vy, Parameter.init cfg.vy none none)]
        ++ include_indices.foldl
            (fun ps uv => dictInsert ps (SDLKey.intensity uv.1 uv.2)
              (Parameter.init cfg.intensity_0 none none)) []
        ++ (if cfg.refine_radius then
              [(SDLKey.diskRadius, Parameter.init cfg.disk_radius none none)]
            else [])
        ++ (if cfg.refine_width then
              [(SDLKey.edgeWidth, Parameter.init cfg.disk_width none none)]
            else []) }

/-- The ordered list of per-peak Intensity entries of a built params dict. -/
def intensityEntries (ps : List (SDLKey × Parameter)) :
    List ((ℤ × ℤ) × Parameter) :=
  ps.filterMap (fun e =>
    match e.1 with
    | SDLKey.intensity u v => some ((u, v), e.2)
    | _ => none)

/-!  ## Fourier-domain machinery for the kernel-lattice models

`np.fft.fft2` / `np.fft.ifft2` are embedded as the 2D discrete Fourier
transform and its (normalized) inverse, and `np.fft.fftfreq` literally. -/

/-- `np.fft.fftfreq(N)[k]`: `k/N` for the first `(N-1)//2 + 1` entries,
`(k-N)/N` for the rest. -/
noncomputable def fftfreq (N : ℕ) (k : Fin N) : ℝ :=
  if 2 * (k : ℕ) < N then (k : ℕ) / N else ((k : ℕ) - (N : ℝ)) / N

/-- `np.fft.fft2`. -/
noncomputable def dft2 (Nx Ny : ℕ) (f : Fin Nx × Fin Ny → ℂ) :
    Fin Nx × Fin Ny → ℂ :=
  fun k => ∑ n : Fin Nx × Fin Ny, f n *
    Complex.exp ((-2) * Real.pi * Complex.I *
      ((((k.1 : ℕ) * (n.1 : ℕ) : ℝ) / Nx : ℝ) + (((k.2 : ℕ) * (n.2 : ℕ) : ℝ) / Ny : ℝ)))

/-- `np.fft.ifft2` (with the `1/(Nx*Ny)` normalization numpy applies). -/
noncomputable def idft2 (Nx Ny : ℕ) (F : Fin Nx × Fin Ny → ℂ) :
    Fin Nx × Fin Ny → ℂ :=
  fun n => (1 / ((Nx : ℂ) * (Ny : ℂ))) * ∑ k : Fin Nx × Fin Ny, F k *
    Complex.exp (2 * Real.pi * Complex.I *
      ((((k.1 : ℕ) * (n.1 : ℕ) : ℝ) / Nx : ℝ) + (((k.2 : ℕ) * (n.2 : ℕ) : ℝ) / Ny : ℝ)))

/-- `np.abs(np.fft.ifft2(self.probe_kernelFT * np.exp(-2j*np.pi*
(self.xqArray*x + self.yqArray*y))))`: the magnitude of the probe kernel
phase-shifted to real-space position `(x, y)`.  `xqArray`/`yqArray` are the
`fftfreq` meshes tiled over the pattern. -/
noncomputable def shiftedKernelAbs {Nx Ny : ℕ} (kFT : Fin Nx × Fin Ny → ℂ)
    (x y : ℝ) : Pattern Nx Ny :=
  fun p => Complex.abs (idft2 Nx Ny
    (fun q => kFT q * Complex.exp ((-2) * Complex.I * Real.pi *
      ((fftfreq Nx q.1 * x + fftfreq Ny q.2 * y : ℝ) : ℂ))) p)

/-- `local_center_func(DP, kwargs["global_x0"], kwargs["global_y0"], *args)`:
the positional argument tuple with the two global centers prepended. -/
def prepend2 (a b : ℝ) (args : ℕ → ℝ) : ℕ → ℝ :=
  fun n => match n with
    | 0 => a
    | 1 => b
    | Nat.succ (Nat.succ k) => args k

/-!  ## `KernelDiskLattice` (incoherent kernel lattice) -/

/-- `KernelDiskLattice` runtime view: the precomputed kernel transform and
the retained `(u,v)` pairs in order.  Parameter values reach the forward
function positionally: after the global centers are prepended,
`args[0] = x0`, `args[1] = y0`, `args[2..5] = ux, uy, vx, vy`, and
`args[i+6]` is the intensity of the `i`-th retained peak. -/
structure KDLM (Nx Ny : ℕ) where
  probe_kernelFT : Fin Nx × Fin Ny → ℂ
  peaks : List (ℤ × ℤ)

/-- The `enumerate` loop of `KernelDiskLattice.local_center_func`, carrying
the enumeration index `i`:
`DP += (args[i+6] * np.abs(np.fft.ifft2(...)))**2`. -/
noncomputable def KDLloop {Nx Ny : ℕ} (m : KDLM Nx Ny) (args : ℕ → ℝ) :
    ℕ → List (ℤ × ℤ) → Pattern Nx Ny → Pattern Nx Ny
  | _, [], DP => DP
  | i, (u, v) :: rest, DP =>
      KDLloop m args (i + 1) rest (fun p => DP p +
        (args (i + 6) * shiftedKernelAbs m.probe_kernelFT
          (args 0 + u * args 2 + v * args 4)
          (args 1 + u * args 3 + v * args 5) p) ^ 2)

/-- `KernelDiskLattice.local_center_func`. -/
noncomputable def KDLM.local_center_func {Nx Ny : ℕ} (m : KDLM Nx Ny)
    (args : ℕ → ℝ) (DP : Pattern Nx Ny) : Pattern Nx Ny :=
  KDLloop m args 0 m.peaks DP

/-- `KernelDiskLattice.global_center_func` (the `func` slot assigned at
construction): prepends the global centers to the positional arguments. -/
noncomputable def KDLM.global_center_func {Nx Ny : ℕ} (m : KDLM Nx Ny)
    (sd : StaticData Nx Ny) (args : ℕ → ℝ) (DP : Pattern Nx Ny) :
    Pattern Nx Ny :=
  m.local_center_func (prepend2 sd.global_x0 sd.global_y0 args) DP

/-- The total the incoherent forward function adds, as the code computes it:
`Σ_peaks (intensity_peak * |shifted_kernel|)²` (the squared product, so the
intensity parameter enters squared). -/
noncomputable def KDLM.contrib {Nx Ny : ℕ} (m : KDLM Nx Ny) (args : ℕ → ℝ) :
    Pattern Nx Ny :=
  fun p => ((m.peaks.enum.map (fun e =>
    (args (e.1 + 6)) ^ 2 * (shiftedKernelAbs m.probe_kernelFT
      (args 0 + e.2.1 * args 2 + e.2.2 * args 4)
      (args 1 + e.2.1 * args 3 + e.2.2 * args 5) p) ^ 2)).sum)

/-- The spec's claimed formula for the incoherent variant, following its
words: pattern contribution `Σ_peaks intensity_peak · |shifted_kernel|²`
(the intensity entering linearly). -/
noncomputable def KDLM.claimedContrib {Nx Ny : ℕ} (m : KDLM Nx Ny)
    (args : ℕ → ℝ) : Pattern Nx Ny :=
  fun p => ((m.peaks.enum.map (fun e =>
    args (e.1 + 6) * (shiftedKernelAbs m.probe_kernelFT
      (args 0 + e.2.1 * args 2 + e.2.2 * args 4)
      (args 1 + e.2.1 * args 3 + e.2.2 * args 5) p) ^ 2)).sum)

/-!  ## `ComplexOverlapKernelDiskLattice` (coherent kernel lattice) -/

/-- Keys of the coherent kernel lattice params dict (the per-peak string
keys `f"[{u},{v}] Intensity"` / `f"[{u}, {v}] Phase"` keyed by the pair). -/
inductive CKey where
  | ux : CKey
  | uy : CKey
  | vx : CKey
  | vy : CKey
  | intensity (u v : ℤ) : CKey
  | phase (u v : ℤ) : CKey
deriving DecidableEq

/-- `ComplexOverlapKernelDiskLattice` runtime view: kernel transform,
retained pairs, and the ordered params dict built at construction.
Positionally, `args[2*i+6]` is the `i`-th retained peak's intensity and
`args[2*i+7]` its phase. -/
structure COKDLM (Nx Ny : ℕ) where
  probe_kernelFT : Fin Nx × Fin Ny → ℂ
  peaks : List (ℤ × ℤ)
  params : List (CKey × Parameter)

/-- The `enumerate` loop of `ComplexOverlapKernelDiskLattice.local_center_func`
accumulating the complex amplitude array `localDP`:
`localDP += args[2*i+6] * np.exp(1j*args[2*i+7]) * np.abs(np.fft.ifft2(...))`. -/
noncomputable def COKDLloop {Nx Ny : ℕ} (m : COKDLM Nx Ny) (args : ℕ → ℝ) :
    ℕ → List (ℤ × ℤ) → (Fin Nx × Fin Ny → ℂ) → (Fin Nx × Fin Ny → ℂ)
  | _, [], acc => acc
  | i, (u, v) :: rest, acc =>
      COKDLloop m args (i + 1) rest (fun p => acc p +
        (args (2 * i + 6) : ℂ) * Complex.exp (Complex.I * (args (2 * i + 7) : ℝ)) *
          ((shiftedKernelAbs m.probe_kernelFT
            (args 0 + u * args 2 + v * args 4)
            (args 1 + u * args 3 + v * args 5) p : ℝ) : ℂ))

/-- `ComplexOverlapKernelDiskLattice.local_center_func`: zero `localDP`,
run the amplitude loop, then `DP += np.abs(localDP)**2` (the magnitude is
squared exactly once, after the complex sum). -/
noncomputable def COKDLM.local_center_func {Nx Ny : ℕ} (m : COKDLM Nx Ny)
    (args : ℕ → ℝ) (DP : Pattern Nx Ny) : Pattern Nx Ny :=
  fun p => DP p + (Complex.abs (COKDLloop m args 0 m.peaks (fun _ => 0) p)) ^ 2

/-- `ComplexOverlapKernelDiskLattice.global_center_func` (the `func` slot). -/
noncomputable def COKDLM.global_center_func {Nx Ny : ℕ} (m : COKDLM Nx Ny)
    (sd : StaticData Nx Ny) (args : ℕ → ℝ) (DP : Pattern Nx Ny) :
    Pattern Nx Ny :=
  m.local_center_func (prepend2 sd.global_x0 sd.global_y0 args) DP

/-- The complex amplitude sum as the code computes it: each retained peak
contributes `intensity_peak · exp(i·phase_peak) · |shifted_kernel|` (the
intensity parameter itself, not its square root). -/
noncomputable def COKDLM.amplitudeSum {Nx Ny : ℕ} (m : COKDLM Nx Ny)
    (args : ℕ → ℝ) : Fin Nx × Fin Ny → ℂ :=
  fun p => ((m.peaks.enum.map (fun e =>
    (args (2 * e.1 + 6) : ℂ) * Complex.exp (Complex.I * (args (2 * e.1 + 7) : ℝ)) *
      ((shiftedKernelAbs m.probe_kernelFT
        (args 0 + e.2.1 * args 2 + e.2.2 * args 4)
        (args 1 + e.2.1 * args 3 + e.2.2 * args 5) p : ℝ) : ℂ))).sum)

/-- The spec's claimed coherent amplitude sum, following its words: complex
amplitudes `intensity_peak^(1/2) · exp(i·phase_peak) · |shifted_kernel|`
summed over the peaks. -/
noncomputable def COKDLM.claimedAmplitudeSum {Nx Ny : ℕ} (m : COKDLM Nx Ny)
    (args : ℕ → ℝ) : Fin Nx × Fin Ny → ℂ :=
  fun p => ((m.peaks.enum.map (fun e =>
    ((Real.sqrt (args (2 * e.1 + 6)) : ℝ) : ℂ) *
      Complex.exp (Complex.I * (args (2 * e.1 + 7) : ℝ)) *
      ((shiftedKernelAbs m.probe_kernelFT
        (args 0 + e.2.1 * args 2 + e.2.2 * args 4)
        (args 1 + e.2.1 * args 3 + e.2.2 * args 5) p : ℝ) : ℂ))).sum)

/-- The spec's claimed coherent contribution: the squared magnitude of the
claimed amplitude sum. -/
noncomputable def COKDLM.claimedContrib {Nx Ny : ℕ} (m : COKDLM Nx Ny)
    (args : ℕ → ℝ) : Pattern Nx Ny :=
  fun p => (Complex.abs (m.claimedAmplitudeSum args p)) ^ 2

/-!  ## Construction of the kernel lattices -/

/-- Construction arguments common to both kernel lattices (the center used
for the bounds check is the static global center, read from
`WPF.static_data`). -/
structure KLatCfg where
  ux : ℝ
  uy : ℝ
  vx : ℝ
  vy : ℝ
  u_max : ℕ
  v_max : ℕ
  intensity_0 : ℝ
  exclude_indices : List (ℤ × ℤ)
  global_x0 : ℝ
  global_y0 : ℝ
  Q_Nx : ℝ
  Q_Ny : ℝ

/-- Deletion condition of the kernel-lattice constructors (identical shape to
the disk lattice's): excluded, or predicted center outside
`[0, Q_Nx] × [0, Q_Ny]`. -/
def KLatCfg.deleted (cfg : KLatCfg) (uv : ℤ × ℤ) : Prop :=
  uv ∈ cfg.exclude_indices ∨
    cfg.global_x0 + uv.1 * cfg.ux + uv.2 * cfg.vx < 0 ∨
    cfg.global_x0 + uv.1 * cfg.ux + uv.2 * cfg.vx > cfg.Q_Nx ∨
    cfg.global_y0 + uv.1 * cfg.uy + uv.2 * cfg.vy < 0 ∨
    cfg.global_y0 + uv.1 * cfg.uy + uv.2 * cfg.vy > cfg.Q_Ny

/-- `KernelDiskLattice.__init__`: `probe_kernelFT = np.fft.fft2(probe_kernel)`
and the pruned peak list. -/
noncomputable def KDLbuild (Nx Ny : ℕ) (cfg : KLatCfg)
    (probe_kernel : Fin Nx × Fin Ny → ℂ) : KDLM Nx Ny :=
  { probe_kernelFT := dft2 Nx Ny probe_kernel
    peaks := pruneInds cfg.deleted (candidatePairs cfg.u_max cfg.v_max) }

/-- The Phase parameter the coherent constructor registers for a kept peak:
`Parameter(0.0, 0.0, 0.0)` for the direct beam `(0,0)` (phase clamped at
zero), `Parameter(0.01, -np.pi, np.pi)` otherwise. -/
noncomputable def phaseParam (u v : ℤ) : Parameter :=
  if u = 0 ∧ v = 0 then Parameter.init 0 (some 0) (some 0)
  else Parameter.init 0.01 (some (-Real.pi)) (some Real.pi)

/-- `ComplexOverlapKernelDiskLattice.__init__`: kernel transform, lattice
vector params, then per kept candidate an Intensity parameter and a Phase
parameter (the `(0,0)` phase clamped to exactly zero), and the pruned index
arrays. -/
noncomputable def COKDLbuild (Nx Ny : ℕ) (cfg : KLatCfg)
    (probe_kernel : Fin Nx × Fin Ny → ℂ) : COKDLM Nx Ny :=
  let cands := candidatePairs cfg.u_max cfg.v_max
  { probe_kernelFT := dft2 Nx Ny probe_kernel
    peaks := pruneInds cfg.deleted cands
    params :=
      [(CKey.ux, Parameter.init cfg.ux none none),
       (CKey.uy, Parameter.init cfg.uy none none),
       (CKey.vx, Parameter.init cfg.vx none none),
       (CKey.vy, Parameter.init cfg.vy none none)]
      ++ keptBind cfg.deleted
          (fun uv => [(CKey.intensity uv.1 uv.2,
              Parameter.init cfg.intensity_0 none none),
            (CKey.phase uv.1 uv.2, phaseParam uv.1 uv.2)]) cands }

/-!  ## `SyntheticDiskMoire`

A stub in the source: its `func` and `jacobian` bodies are `pass` (it would
contribute Moire-peak intensities derived from two parent lattices, but the
derivation is unimplemented). -/

/-- `SyntheticDiskMoire.func`: `pass`. -/
def MoireFunc {Nx Ny : ℕ} (_sd : StaticData Nx Ny) (_x : ℕ → ℝ)
    (DP : Pattern Nx Ny) : Pattern Nx Ny := DP

/-!  ## The component list and the composition engine's forward pass -/

/-- The closed sum of the model components of the file whose forward
functions evaluate (the `GaussianRing` forward fails on an unregistered
parameter key and is `Option`-valued, see `GaussianRingM.global_center_func`). -/
inductive WPFComponent (Nx Ny : ℕ) where
  | base (m : BaseModelM) : WPFComponent Nx Ny
  | dc (m : DCBackgroundM) : WPFComponent Nx Ny
  | gaussBG (m : GaussianBackgroundM) : WPFComponent Nx Ny
  | diskLattice (m : SDLM) : WPFComponent Nx Ny
  | kernelLattice (m : KDLM Nx Ny) : WPFComponent Nx Ny
  | complexKernel (m : COKDLM Nx Ny) : WPFComponent Nx Ny
  | moire : WPFComponent Nx Ny

/-- Dispatch of the forward function.  The kernel-lattice models take their
parameter values positionally (the engine passes the values of their params
dict in order); we hand them the ambient sequence directly, which covers
every sequence the engine could construct. -/
noncomputable def WPFComponent.func {Nx Ny : ℕ} (c : WPFComponent Nx Ny)
    (sd : StaticData Nx Ny) (x : ℕ → ℝ) (DP : Pattern Nx Ny) :
    Pattern Nx Ny :=
  match c with
  | .base m => m.func sd x DP
  | .dc m => m.func sd x DP
  | .gaussBG m => m.func sd x DP
  | .diskLattice m => m.func sd x DP
  | .kernelLattice m => m.global_center_func sd x DP
  | .complexKernel m => m.global_center_func sd x DP
  | .moire => MoireFunc sd x DP

/-- Modelled from the spec: the composition engine's `evaluate` (the `WPF`
engine class is not in the source file) — zero a working pattern, then invoke
every registered component's forward function in registration order, each
adding in place. -/
noncomputable def evaluate {Nx Ny : ℕ} (models : List (WPFComponent Nx Ny))
    (sd : StaticData Nx Ny) (x : ℕ → ℝ) : Pattern Nx Ny :=
  models.foldl (fun DP c => c.func sd x DP) (fun _ => 0)

/-!  ## Helper lemmas: in-place accumulation loops as sums -/

theorem SDLfuncLoop_eq {Nx Ny : ℕ} (m : SDLM) (sd : StaticData Nx Ny)
    (x : ℕ → ℝ) (l : List (ℤ × ℤ × ℕ)) :
    ∀ DP : Pattern Nx Ny, SDLfuncLoop m sd x l DP =
      fun p => DP p + ((l.map (fun t => m.peakContrib sd x t.1 t.2.1 t.2.2 p)).sum) := by
  induction l with
  | nil => intro DP; funext p; simp [SDLfuncLoop]
  | cons head tail ih =>
      intro DP
      obtain ⟨u, v, iOff⟩ := head
      funext p
      rw [SDLfuncLoop, ih]
      simp [add_assoc]

theorem SDL_func_eq_add_contrib {Nx Ny : ℕ} (m : SDLM) (sd : StaticData Nx Ny)
    (x : ℕ → ℝ) (DP : Pattern Nx Ny) :
    m.func sd x DP = fun p => DP p + m.contrib sd x p := by
  rw [SDLM.func, SDLfuncLoop_eq]
  rfl

theorem KDLloop_eq {Nx Ny : ℕ} (m : KDLM Nx Ny) (args : ℕ → ℝ)
    (l : List (ℤ × ℤ)) :
    ∀ (i : ℕ) (DP : Pattern Nx Ny), KDLloop m args i l DP =
      fun p => DP p + (((l.enumFrom i).map (fun e =>
        (args (e.1 + 6) * shiftedKernelAbs m.probe_kernelFT
          (args 0 + e.2.1 * args 2 + e.2.2 * args 4)
          (args 1 + e.2.1 * args 3 + e.2.2 * args 5) p) ^ 2)).sum) := by
  induction l with
  | nil => intro i DP; funext p; simp [KDLloop]
  | cons head tail ih =>
      intro i DP
      obtain ⟨u, v⟩ := head
      funext p
      rw [KDLloop, ih]
      simp [List.enumFrom, add_assoc]

theorem KDL_func_eq_add_contrib {Nx Ny : ℕ} (m : KDLM Nx Ny) (args : ℕ → ℝ)
    (DP : Pattern Nx Ny) :
    m.local_center_func args DP = fun p => DP p + m.contrib args p := by
  rw [KDLM.local_center_func, KDLloop_eq]
  funext p
  rw [KDLM.contrib, show List.enum m.peaks = List.enumFrom 0 m.peaks from rfl]
  simp only [mul_pow]

theorem COKDLloop_eq {Nx Ny : ℕ} (m : COKDLM Nx Ny) (args : ℕ → ℝ)
    (l : List (ℤ × ℤ)) :
    ∀ (i : ℕ) (acc : Fin Nx × Fin Ny → ℂ), COKDLloop m args i l acc =
      fun p => acc p + (((l.enumFrom i).map (fun e =>
        (args (2 * e.1 + 6) : ℂ) * Complex.exp (Complex.I * (args (2 * e.1 + 7) : ℝ)) *
          ((shiftedKernelAbs m.probe_kernelFT
            (args 0 + e.2.1 * args 2 + e.2.2 * args 4)
            (args 1 + e.2.1 * args 3 + e.2.2 * args 5) p : ℝ) : ℂ))).sum) := by
  induction l with
  | nil => intro i acc; funext p; simp [COKDLloop]
  | cons head tail ih =>
      intro i acc
      obtain ⟨u, v⟩ := head
      funext p
      rw [COKDLloop, ih]
      simp [List.enumFrom, add_assoc]

theorem COKDL_func_eq_add_contrib {Nx Ny : ℕ} (m : COKDLM Nx Ny)
    (args : ℕ → ℝ) (DP : Pattern Nx Ny) :
    m.local_center_func args DP =
      fun p => DP p + (Complex.abs (m.amplitudeSum args p)) ^ 2 := by
  funext p
  rw [COKDLM.local_center_func, COKDLloop_eq]
  rw [COKDLM.amplitudeSum, List.enum]
  simp

/-- The dispatch-level total contribution of one component: what its forward
function adds to every accumulator. -/
noncomputable def WPFComponent.contrib {Nx Ny : ℕ} (c : WPFComponent Nx Ny)
    (sd : StaticData Nx Ny) (x : ℕ → ℝ) : Pattern Nx Ny :=
  match c with
  | .base _ => fun _ => 0
  | .dc m => fun _ => m.contrib x
  | .gaussBG m => m.contrib sd x
  | .diskLattice m => m.contrib sd x
  | .kernelLattice m => m.contrib (prepend2 sd.global_x0 sd.global_y0 x)
  | .complexKernel m => fun p =>
      (Complex.abs (m.amplitudeSum (prepend2 sd.global_x0 sd.global_y0 x) p)) ^ 2
  | .moire => fun _ => 0

theorem component_func_eq_add_contrib {Nx Ny : ℕ} (c : WPFComponent Nx Ny)
    (sd : StaticData Nx Ny) (x : ℕ → ℝ) (DP : Pattern Nx Ny) :
    c.func sd x DP = fun p => DP p + c.contrib sd x p := by
  cases c with
  | base m => funext p; simp [WPFComponent.func, WPFComponent.contrib, BaseModelM.func]
  | dc m => funext p; simp [WPFComponent.func, WPFComponent.contrib, DCBackgroundM.func,
      DCBackgroundM.contrib]
  | gaussBG m => funext p; simp [WPFComponent.func, WPFComponent.contrib,
      GaussianBackgroundM.func]
  | diskLattice m =>
      have h := SDL_func_eq_add_contrib m sd x DP
      simpa [WPFComponent.func, WPFComponent.contrib] using h
  | kernelLattice m =>
      have h := KDL_func_eq_add_contrib m (prepend2 sd.global_x0 sd.global_y0 x) DP
      simpa [WPFComponent.func, WPFComponent.contrib, KDLM.global_center_func] using h
  | complexKernel m =>
      have h := COKDL_func_eq_add_contrib m (prepend2 sd.global_x0 sd.global_y0 x) DP
      simpa [WPFComponent.func, WPFComponent.contrib, COKDLM.global_center_func] using h
  | moire => funext p; simp [WPFComponent.func, WPFComponent.contrib, MoireFunc]

theorem evaluate_loop_eq {Nx Ny : ℕ} (sd : StaticData Nx Ny) (x : ℕ → ℝ)
    (models : List (WPFComponent Nx Ny)) :
    ∀ DP : Pattern Nx Ny,
      models.foldl (fun DP c => c.func sd x DP) DP =
        fun p => DP p + ((models.map (fun c => c.contrib sd x p)).sum) := by
  induction models with
  | nil => intro DP; funext p; simp
  | cons c rest ih =>
      intro DP
      funext p
      rw [List.foldl_cons, component_func_eq_add_contrib, ih]
      simp [add_assoc]

/-!  ## Main theorems -/

/-- **C1** (corrected).  Every model component of the file except the
Gaussian ring adds its contribution in place: the array its forward function
produces equals the input accumulator plus a contribution that does not
depend on the accumulator (`WPFComponent.contrib` takes no accumulator
argument), so evaluating any union of components equals the pixel-wise sum
of evaluating each component alone on a zero pattern.  The Gaussian ring is
excluded because its forward function produces no array at all (see the
counterexample): it reads the unregistered parameter key `"level"`. -/
theorem additivity_of_forward_models {Nx Ny : ℕ} :
    (∀ (c : WPFComponent Nx Ny) (sd : StaticData Nx Ny) (x : ℕ → ℝ)
        (DP : Pattern Nx Ny),
      c.func sd x DP = fun p => DP p + c.contrib sd x p)
    ∧ (∀ (models : List (WPFComponent Nx Ny)) (sd : StaticData Nx Ny)
        (x : ℕ → ℝ),
      evaluate models sd x =
        fun p => ((models.map (fun c => c.func sd x (fun _ => 0) p)).sum))
    ∧ (∀ (L1 L2 : List (WPFComponent Nx Ny)) (sd : StaticData Nx Ny)
        (x : ℕ → ℝ),
      evaluate (L1 ++ L2) sd x =
        fun p => evaluate L1 sd x p + evaluate L2 sd x p) := by
  refine ⟨component_func_eq_add_contrib, ?_, ?_⟩
  · intro models sd x
    rw [evaluate, evaluate_loop_eq]
    funext p
    rw [zero_add]
    congr 1
    exact List.map_congr_left (fun c _ => by
      rw [component_func_eq_add_contrib]; simp)
  · intro L1 L2 sd x
    funext p
    rw [evaluate, evaluate, evaluate, evaluate_loop_eq, evaluate_loop_eq,
      evaluate_loop_eq]
    simp [add_assoc]

/-- **C1 counterexample**: the claim quantifies over *every* model component
in the file, but at a concrete input the Gaussian ring's forward function
produces no array (the `KeyError` on the unregistered `"level"` key is
embedded as `none`), so it does not equal any accumulator-plus-contribution. -/
theorem gaussian_ring_forward_produces_no_array :
    (GaussianRingM.init 2 3 4 0 1).global_center_func
      (⟨fun _ => 0, fun _ => 0, 0, 0, 1, 1⟩ : StaticData 1 1)
      (fun _ => 1) (fun _ => 0) = none := rfl

/-- **C7** (code_bug).  The claim — all forward functions exception-free, the
Gaussian ring's forward adding `level * exp(-(r-radius)^2/(2*sigma^2))` — is
what the file's own design intends, but `GaussianRing.global_center_func`
reads `self.params["level"]`, a key `__init__` never registers ("intensity"
is registered instead), so the forward function fails on *every* input, for
every offset assignment: the embedded function returns `none`
unconditionally. -/
theorem gaussian_ring_forward_raises {Nx Ny : ℕ}
    (radOff sigOff intOff xcOff ycOff : ℕ) (sd : StaticData Nx Ny)
    (x : ℕ → ℝ) (DP : Pattern Nx Ny) :
    (GaussianRingM.init radOff sigOff intOff xcOff ycOff).global_center_func
      sd x DP = none := rfl

/-- **C10** (confirmed).  The global coordinate model `_BaseModel` is a no-op
contributor: its forward function returns the accumulator unchanged, its
Jacobian slot is present (so `hasJacobian` is `true`) and leaves the Jacobian
unchanged, and it owns exactly the two center parameters. -/
theorem base_model_is_noop (Nx Ny : ℕ) :
    (∀ (m : BaseModelM) (sd : StaticData Nx Ny) (x : ℕ → ℝ)
        (DP : Pattern Nx Ny), m.func sd x DP = DP)
    ∧ BaseModelM.jacobianFn Nx Ny = some (fun J => J)
    ∧ BaseModelM.hasJacobian Nx Ny = true
    ∧ (∀ x0 y0 : ℝ,
        (BaseModelM.init x0 y0).params.map Prod.fst = ["x center", "y center"]) :=
  ⟨fun _ _ _ _ => rfl, rfl, rfl, fun _ _ => rfl⟩

/-- **C8** (corrected).  `Parameter.__init__` performs no bound validation:
for every inverted bound pair (`lower > upper`) construction succeeds and
stores the initial value and both bounds exactly as given — no error is
raised. -/
theorem parameter_bounds_stored_unchecked (v l u : ℝ) (_h : u < l) :
    (Parameter.init v (some l) (some u)).initial_value = v
    ∧ (Parameter.init v (some l) (some u)).lower_bound = (l : EReal)
    ∧ (Parameter.init v (some l) (some u)).upper_bound = (u : EReal) :=
  ⟨rfl, rfl, rfl⟩

/-- Witness for `parameter_bounds_stored_unchecked` at `v = 0`, `l = 1`,
`u = 0`. -/
theorem parameter_bounds_stored_unchecked_witness :
    (Parameter.init 0 (some 1) (some 0)).initial_value = 0
    ∧ (Parameter.init 0 (some 1) (some 0)).lower_bound = ((1 : ℝ) : EReal)
    ∧ (Parameter.init 0 (some 1) (some 0)).upper_bound = ((0 : ℝ) : EReal) :=
  parameter_bounds_stored_unchecked 0 1 0 (by norm_num)

/-- **C8 counterexample**: `Parameter(0.0, 1.0, 0.0)` — lower bound `1`
strictly above upper bound `0` — constructs successfully (the embedding of
`__init__` is a total function because the source has no check and no raise
path), refuting "fails fast with an error raised at construction time". -/
theorem parameter_inverted_bounds_constructs_cex :
    (Parameter.init 0 (some 1) (some 0)).lower_bound = ((1 : ℝ) : EReal)
    ∧ (Parameter.init 0 (some 1) (some 0)).upper_bound = ((0 : ℝ) : EReal)
    ∧ ((0 : ℝ) : EReal) < ((1 : ℝ) : EReal) := by
  refine ⟨rfl, rfl, ?_⟩
  exact_mod_cast (by norm_num : (0 : ℝ) < 1)

/-- **C4** (confirmed).  The disk-lattice forward function adds, per retained
peak and pixel, exactly
`intensity / (1 + exp(min(4*(r - radius)/width, 20)))` with `r` the Euclidean
distance to `center + u*(ux,uy) + v*(vx,vy)` (this is the definition of
`SDLM.peakContrib`, including the saturation of the exponent at 20 before
exponentiation), and at any pixel where `r` equals the radius the peak's
contribution is exactly `intensity / 2`. -/
theorem disk_lattice_sigmoid_profile {Nx Ny : ℕ} :
    (∀ (m : SDLM) (sd : StaticData Nx Ny) (x : ℕ → ℝ) (DP : Pattern Nx Ny),
      m.func sd x DP = fun p => DP p +
        ((m.peaks.map (fun t => m.peakContrib sd x t.1 t.2.1 t.2.2 p)).sum))
    ∧ (∀ (m : SDLM) (sd : StaticData Nx Ny) (x : ℕ → ℝ) (u v : ℤ) (iOff : ℕ)
        (p : Fin Nx × Fin Ny),
      Real.sqrt
          ((sd.xArray p - (x m.xCenterOff + u * x m.uxOff + v * x m.vxOff)) ^ 2
            + (sd.yArray p - (x m.yCenterOff + u * x m.uyOff + v * x m.vyOff)) ^ 2)
        = m.diskRadiusVal x →
      m.peakContrib sd x u v iOff p = x iOff / 2) := by
  constructor
  · intro m sd x DP
    exact SDL_func_eq_add_contrib m sd x DP
  · intro m sd x u v iOff p h
    rw [SDLM.peakContrib, h]
    rw [sub_self, mul_zero, zero_div, min_eq_left (by norm_num : (0:ℝ) ≤ 20),
      Real.exp_zero]
    norm_num

/-- Concrete inputs for the disk-lattice witnesses: a single `(0,0)` peak,
center offsets 0/1, lattice-vector offsets 2–5, intensity offset 6, fixed
radius 3 and width 1. -/
def sdlW : SDLM :=
  { xCenterOff := 0, yCenterOff := 1, uxOff := 2, uyOff := 3, vxOff := 4,
    vyOff := 5, peaks := [(0, 0, 6)], refine_radius := false,
    refine_width := false, disk_radius := 3, disk_width := 1,
    diskRadiusOff := 7, edgeWidthOff := 8 }

/-- A 1×1 static context whose single pixel sits at coordinates `(3, 0)`. -/
def sdW : StaticData 1 1 :=
  { xArray := fun _ => 3, yArray := fun _ => 0, global_x0 := 0,
    global_y0 := 0, Q_Nx := 1, Q_Ny := 1 }

/-- Flat parameter vector for the witnesses: center `(0,0)`, `ux = vy = 1`,
`uy = vx = 0`, intensity 2. -/
def xW : ℕ → ℝ :=
  fun n => if n = 2 then 1 else if n = 5 then 1 else if n = 6 then 2 else 0

/-- Witness for `disk_lattice_sigmoid_profile`: with the pixel at distance
3 = radius from the `(0,0)` peak, the contribution is `intensity / 2`. -/
theorem disk_lattice_sigmoid_profile_witness :
    SDLM.peakContrib sdlW sdW xW 0 0 6 ((0 : Fin 1), (0 : Fin 1)) = xW 6 / 2 := by
  refine disk_lattice_sigmoid_profile.2 sdlW sdW xW 0 0 6 ((0 : Fin 1), (0 : Fin 1)) ?_
  simp only [sdlW, sdW, xW, SDLM.diskRadiusVal]
  norm_num
  rw [show (9 : ℝ) = 3 ^ 2 by norm_num, Real.sqrt_sq (by norm_num : (0:ℝ) ≤ 3)]

/-!  ## Pruning lemmas (construction-time peak generation) -/

theorem pruneInds_nil (del : ℤ × ℤ → Prop) : pruneInds del [] = [] := by
  simp [pruneInds, pruneMask]

open Classical in
theorem pruneInds_cons (del : ℤ × ℤ → Prop) (uv : ℤ × ℤ) (l : List (ℤ × ℤ)) :
    pruneInds del (uv :: l) =
      (if del uv then [] else [uv]) ++ pruneInds del l := by
  by_cases h : del uv <;> simp [pruneInds, pruneMask, h]

theorem mem_pruneInds (del : ℤ × ℤ → Prop) (l : List (ℤ × ℤ)) (uv : ℤ × ℤ) :
    uv ∈ pruneInds del l ↔ uv ∈ l ∧ ¬ del uv := by
  induction l with
  | nil => simp [pruneInds_nil]
  | cons head tail ih =>
      rw [pruneInds_cons]
      by_cases h : del head
      · simp only [h, if_true, List.nil_append, ih, List.mem_cons]
        constructor
        · rintro ⟨hm, hnd⟩; exact ⟨Or.inr hm, hnd⟩
        · rintro ⟨hm | hm, hnd⟩
          · exact absurd (hm ▸ h) hnd
          · exact ⟨hm, hnd⟩
      · simp only [h, if_false, List.cons_append, List.nil_append,
          List.mem_cons, ih]
        constructor
        · rintro (rfl | ⟨hm, hnd⟩)
          · exact ⟨Or.inl rfl, h⟩
          · exact ⟨Or.inr hm, hnd⟩
        · rintro ⟨rfl | hm, hnd⟩
          · exact Or.inl rfl
          · exact Or.inr ⟨hm, hnd⟩

theorem pruneInds_sublist (del : ℤ × ℤ → Prop) (l : List (ℤ × ℤ)) :
    (pruneInds del l).Sublist l := by
  induction l with
  | nil => rw [pruneInds_nil]
  | cons head tail ih =>
      rw [pruneInds_cons]
      by_cases h : del head
      · simp only [h, if_true, List.nil_append]
        exact ih.cons head
      · simp only [h, if_false, List.cons_append, List.nil_append]
        exact ih.cons₂ head

theorem pruneInds_nodup (del : ℤ × ℤ → Prop) (l : List (ℤ × ℤ))
    (h : l.Nodup) : (pruneInds del l).Nodup :=
  (pruneInds_sublist del l).nodup h

theorem keptBind_eq_flatMap {α : Type} (del : ℤ × ℤ → Prop)
    (f : ℤ × ℤ → List α) (l : List (ℤ × ℤ)) :
    keptBind del f l = (pruneInds del l).flatMap f := by
  induction l with
  | nil => simp [keptBind, pruneInds_nil]
  | cons head tail ih =>
      rw [keptBind, pruneInds_cons]
      by_cases h : del head <;> simp [h, ih]

theorem candidatePairs_nodup (u_max v_max : ℕ) :
    (candidatePairs u_max v_max).Nodup := by
  rw [candidatePairs, List.nodup_flatMap]
  have hinj1 : Function.Injective (fun i : ℕ => (i : ℤ) - u_max) := by
    intro a b hab; simpa using hab
  have hinj2 : Function.Injective (fun j : ℕ => (j : ℤ) - v_max) := by
    intro a b hab; simpa using hab
  constructor
  · intro u _
    refine List.Nodup.map ?_ ((List.nodup_range _).map hinj2)
    intro a b hab
    exact ((Prod.mk.injEq _ _ _ _).mp hab).2
  · refine List.Pairwise.imp ?_ ((List.nodup_range _).map hinj1)
    intro a b hne
    simp only [Function.onFun, List.disjoint_left, List.mem_map]
    rintro uv ⟨v1, _, rfl⟩ ⟨v2, _, heq⟩
    exact hne (congrArg Prod.fst heq).symm

theorem mem_candidatePairs (u_max v_max : ℕ) (uv : ℤ × ℤ) :
    uv ∈ candidatePairs u_max v_max ↔
      -(u_max : ℤ) ≤ uv.1 ∧ uv.1 ≤ u_max ∧ -(v_max : ℤ) ≤ uv.2 ∧ uv.2 ≤ v_max := by
  obtain ⟨u, v⟩ := uv
  rw [candidatePairs, List.mem_flatMap]
  constructor
  · rintro ⟨w, hw, hm⟩
    rw [List.mem_map] at hw
    obtain ⟨i, hi, rfl⟩ := hw
    rw [List.mem_range] at hi
    rw [List.mem_map] at hm
    obtain ⟨v2, hv2, heq⟩ := hm
    rw [List.mem_map] at hv2
    obtain ⟨j, hj, rfl⟩ := hv2
    rw [List.mem_range] at hj
    rw [Prod.ext_iff] at heq
    obtain ⟨h1, h2⟩ := heq
    simp only at h1 h2
    refine ⟨?_, ?_, ?_, ?_⟩ <;> omega
  · rintro ⟨h1, h2, h3, h4⟩
    refine ⟨u, ?_, ?_⟩
    · rw [List.mem_map]
      exact ⟨(u + u_max).toNat, List.mem_range.mpr (by omega), by omega⟩
    · rw [List.mem_map]
      refine ⟨v, ?_, rfl⟩
      rw [List.mem_map]
      exact ⟨(v + v_max).toNat, List.mem_range.mpr (by omega), by omega⟩

theorem intensityEntries_append (l1 l2 : List (SDLKey × Parameter)) :
    intensityEntries (l1 ++ l2) = intensityEntries l1 ++ intensityEntries l2 := by
  rw [intensityEntries, intensityEntries, intensityEntries, List.filterMap_append]

theorem intensityEntries_fixed6 (a b c d e f : Parameter) :
    intensityEntries [(SDLKey.xCenter, a), (SDLKey.yCenter, b), (SDLKey.ux, c),
      (SDLKey.uy, d), (SDLKey.vx, e), (SDLKey.vy, f)] = [] := rfl

theorem intensityEntries_radiusOpt (b : Bool) (P : Parameter) :
    intensityEntries (if b then [(SDLKey.diskRadius, P)] else []) = [] := by
  cases b <;> rfl

theorem intensityEntries_widthOpt (b : Bool) (P : Parameter) :
    intensityEntries (if b then [(SDLKey.edgeWidth, P)] else []) = [] := by
  cases b <;> rfl

theorem intensityEntries_map_intensity (q : ℤ × ℤ → Parameter)
    (l : List (ℤ × ℤ)) :
    intensityEntries (l.map (fun uv => (SDLKey.intensity uv.1 uv.2, q uv))) =
      l.map (fun uv => (uv, q uv)) := by
  induction l with
  | nil => rfl
  | cons head tail ih =>
      rw [List.map_cons, intensityEntries, List.filterMap_cons]
      rw [intensityEntries] at ih
      simpa using ih

open Classical in
theorem intensityEntries_keptBind (del : ℤ × ℤ → Prop)
    (q : ℤ × ℤ → Parameter) (l : List (ℤ × ℤ)) :
    intensityEntries (keptBind del
        (fun uv => [(SDLKey.intensity uv.1 uv.2, q uv)]) l) =
      (pruneInds del l).map (fun uv => (uv, q uv)) := by
  rw [keptBind_eq_flatMap]
  induction pruneInds del l with
  | nil => rfl
  | cons head tail ih =>
      rw [List.flatMap_cons, List.map_cons, intensityEntries,
        List.filterMap_append]
      rw [intensityEntries] at ih
      rw [ih]
      rfl

theorem intensityEntries_SDLbuildRange (cfg : SDLCfg) :
    intensityEntries (SDLbuildRange cfg).params =
      (SDLbuildRange cfg).u_v_inds.map
        (fun uv => (uv, Parameter.init cfg.intensity_0 none none)) := by
  simp only [SDLbuildRange, intensityEntries_append, intensityEntries_fixed6,
    intensityEntries_radiusOpt, intensityEntries_widthOpt,
    intensityEntries_keptBind, List.nil_append, List.append_nil]

theorem mem_dictKeyOrder (l : List (ℤ × ℤ)) :
    ∀ (S : List (ℤ × ℤ)) (uv : ℤ × ℤ),
      uv ∈ dictKeyOrder S l ↔ uv ∈ S ∨ uv ∈ l := by
  induction l with
  | nil => intro S uv; simp [dictKeyOrder]
  | cons head rest ih =>
      intro S uv
      rw [dictKeyOrder]
      by_cases h : head ∈ S
      · rw [if_pos h, ih]
        constructor
        · rintro (hS | hr)
          · exact Or.inl hS
          · exact Or.inr (List.mem_cons_of_mem _ hr)
        · rintro (hS | hc)
          · exact Or.inl hS
          · rcases List.mem_cons.mp hc with rfl | hr
            · exact Or.inl h
            · exact Or.inr hr
      · rw [if_neg h, ih]
        constructor
        · rintro (hS | hr)
          · rcases List.mem_append.mp hS with hS2 | hu
            · exact Or.inl hS2
            · exact Or.inr (List.mem_cons.mpr (Or.inl (List.mem_singleton.mp hu)))
          · exact Or.inr (List.mem_cons_of_mem _ hr)
        · rintro (hS | hc)
          · exact Or.inl (List.mem_append.mpr (Or.inl hS))
          · rcases List.mem_cons.mp hc with rfl | hr
            · exact Or.inl (List.mem_append.mpr (Or.inr (List.mem_singleton.mpr rfl)))
            · exact Or.inr hr

theorem dictKeyOrder_nodup (l : List (ℤ × ℤ)) :
    ∀ S : List (ℤ × ℤ), S.Nodup → (dictKeyOrder S l).Nodup := by
  induction l with
  | nil => intro S hS; exact hS
  | cons head rest ih =>
      intro S hS
      rw [dictKeyOrder]
      by_cases h : head ∈ S
      · rw [if_pos h]
        exact ih S hS
      · rw [if_neg h]
        refine ih _ ?_
        rw [List.nodup_append]
        exact ⟨hS, List.nodup_singleton _, by simpa using h⟩

theorem foldl_dictInsert_eq (P0 : Parameter) (l : List (ℤ × ℤ)) :
    ∀ S : List (ℤ × ℤ),
      l.foldl (fun ps uv => dictInsert ps (SDLKey.intensity uv.1 uv.2) P0)
          (S.map (fun uv => (SDLKey.intensity uv.1 uv.2, P0))) =
        (dictKeyOrder S l).map
          (fun uv => (SDLKey.intensity uv.1 uv.2, P0)) := by
  induction l with
  | nil => intro S; rfl
  | cons uv rest ih =>
      intro S
      rw [List.foldl_cons, dictKeyOrder]
      by_cases h : uv ∈ S
      · rw [if_pos h]
        have hstep : dictInsert
            (S.map (fun w => (SDLKey.intensity w.1 w.2, P0)))
            (SDLKey.intensity uv.1 uv.2) P0 =
            S.map (fun w => (SDLKey.intensity w.1 w.2, P0)) := by
          rw [dictInsert, if_pos ?present]
          case present =>
            rw [List.map_map]
            exact List.mem_map.mpr ⟨uv, h, rfl⟩
          rw [List.map_map]
          apply List.map_congr_left
          intro w _
          simp only [Function.comp_apply]
          by_cases hw : SDLKey.intensity w.1 w.2 = SDLKey.intensity uv.1 uv.2
          · rw [if_pos hw, hw]
          · rw [if_neg hw]
        rw [hstep]
        exact ih S
      · rw [if_neg h]
        have hstep : dictInsert
            (S.map (fun w => (SDLKey.intensity w.1 w.2, P0)))
            (SDLKey.intensity uv.1 uv.2) P0 =
            (S ++ [uv]).map (fun w => (SDLKey.intensity w.1 w.2, P0)) := by
          rw [dictInsert, if_neg ?absent]
          case absent =>
            rw [List.map_map]
            intro hmem
            obtain ⟨w, hwS, hwk⟩ := List.mem_map.mp hmem
            simp only [Function.comp_apply] at hwk
            obtain ⟨h1, h2⟩ := (SDLKey.intensity.injEq _ _ _ _).mp hwk
            exact h ((Prod.ext_iff.mpr ⟨h1, h2⟩ : w = uv) ▸ hwS)
          rw [List.map_append]
          rfl
        rw [hstep]
        exact ih (S ++ [uv])

theorem includeIntensity_eq (P0 : Parameter) (inds : List (ℤ × ℤ)) :
    inds.foldl (fun ps uv => dictInsert ps (SDLKey.intensity uv.1 uv.2) P0) [] =
      (dictKeyOrder [] inds).map
        (fun uv => (SDLKey.intensity uv.1 uv.2, P0)) :=
  foldl_dictInsert_eq P0 inds []

/-- **C6** (corrected).  For the generated-range branch
(`include_indices is None`) the claim holds: a candidate pair from
`[-u_max,u_max] × [-v_max,v_max]` is retained exactly when it is neither in
the exclusion list nor outside `[0, Q_Nx] × [0, Q_Ny]` (the `deleted`
condition), the retained index list has no duplicates, and the per-peak
Intensity parameters are in lock-step order with it, one
`Parameter(intensity_0)` per survivor.  For the explicit-inclusion branch the
claim fails (see the counterexample): construction errors on an empty list
(`IndexError` at `np.array([])[:, 0]`, embedded as `none`), and a non-empty
list is retained wholesale — *no* exclusion or bounds filtering — with the
index arrays equal to the supplied list (duplicates included) and one
Intensity parameter per *distinct* pair, in first-occurrence (dict key
insertion) order. -/
theorem lattice_peak_pruning_characterization (cfg : SDLCfg)
    (include_indices : List (ℤ × ℤ)) :
    ((∀ uv : ℤ × ℤ, uv ∈ (SDLbuildRange cfg).u_v_inds ↔
        ((-(cfg.u_max : ℤ) ≤ uv.1 ∧ uv.1 ≤ cfg.u_max
            ∧ -(cfg.v_max : ℤ) ≤ uv.2 ∧ uv.2 ≤ cfg.v_max)
          ∧ ¬ cfg.deleted uv))
      ∧ (SDLbuildRange cfg).u_v_inds.Nodup
      ∧ intensityEntries (SDLbuildRange cfg).params =
          (SDLbuildRange cfg).u_v_inds.map
            (fun uv => (uv, Parameter.init cfg.intensity_0 none none)))
    ∧ (SDLbuildInclude cfg [] = none
      ∧ (include_indices ≠ [] →
          ∃ b : SDLBuilt, SDLbuildInclude cfg include_indices = some b
            ∧ b.u_v_inds = include_indices
            ∧ intensityEntries b.params =
                (dictKeyOrder [] include_indices).map
                  (fun uv => (uv, Parameter.init cfg.intensity_0 none none))
            ∧ (∀ uv : ℤ × ℤ,
                uv ∈ dictKeyOrder [] include_indices ↔ uv ∈ include_indices)
            ∧ (dictKeyOrder [] include_indices).Nodup)) := by
  refine ⟨⟨fun uv => ?_, ?_, intensityEntries_SDLbuildRange cfg⟩, rfl, ?_⟩
  · rw [show (SDLbuildRange cfg).u_v_inds =
        pruneInds cfg.deleted (candidatePairs cfg.u_max cfg.v_max) from rfl,
      mem_pruneInds, mem_candidatePairs]
  · exact pruneInds_nodup _ _ (candidatePairs_nodup cfg.u_max cfg.v_max)
  · intro h
    rw [SDLbuildInclude, if_neg h]
    refine ⟨_, rfl, rfl, ?_, fun uv => ?_, ?_⟩
    · show intensityEntries (_ ++ _ ++ _ ++ _) = _
      rw [intensityEntries_append, intensityEntries_append,
        intensityEntries_append, intensityEntries_fixed6,
        intensityEntries_radiusOpt, intensityEntries_widthOpt,
        includeIntensity_eq, intensityEntries_map_intensity,
        List.nil_append, List.append_nil, List.append_nil]
    · rw [mem_dictKeyOrder]
      simp
    · exact dictKeyOrder_nodup include_indices [] List.nodup_nil

/-- Concrete configuration for the C6 counterexample and witness: pattern
extent 10×10, center `(0,0)`, unit lattice vectors, and the pair `(50,50)`
explicitly excluded; its predicted center `(100,100)` also lies far outside
the pattern. -/
def sdlCexCfg : SDLCfg :=
  { ux := 1, uy := 0, vx := 0, vy := 1, disk_radius := 1, disk_width := 1,
    u_max := 0, v_max := 0, intensity_0 := 7, refine_radius := false,
    refine_width := false, x0 := 0, y0 := 0, exclude_indices := [(50, 50)],
    Q_Nx := 10, Q_Ny := 10 }

/-- Witness for `lattice_peak_pruning_characterization` at a concrete
non-empty inclusion list with a duplicated pair: both copies of `(1,1)` stay
in the index arrays while the params dict holds a single Intensity entry. -/
theorem lattice_peak_pruning_characterization_witness :
    ∃ b : SDLBuilt, SDLbuildInclude sdlCexCfg [(1, 1), (1, 1)] = some b
      ∧ b.u_v_inds = [(1, 1), (1, 1)]
      ∧ intensityEntries b.params =
          (dictKeyOrder [] [(1, 1), (1, 1)]).map
            (fun uv => (uv, Parameter.init sdlCexCfg.intensity_0 none none))
      ∧ (∀ uv : ℤ × ℤ,
          uv ∈ dictKeyOrder [] [(1, 1), (1, 1)] ↔ uv ∈ [(1, 1), (1, 1)])
      ∧ (dictKeyOrder [] [(1, 1), (1, 1)]).Nodup :=
  (lattice_peak_pruning_characterization sdlCexCfg [(1, 1), (1, 1)]).2.2
    (by simp)

/-- **C6 counterexample**: the claim says a pair supplied via the explicit
inclusion list is dropped when it appears in the exclusion list or its
predicted center falls outside `[0, Q_Nx] × [0, Q_Ny]`.  Here `(50,50)` is
in the exclusion list (and its predicted center x-coordinate `50 > Q_Nx = 10`
is also out of bounds), yet construction succeeds with `(50,50)` retained in
the index arrays and owning an Intensity parameter. -/
theorem include_indices_bypass_pruning_cex :
    (SDLbuildInclude sdlCexCfg [(50, 50)]).map (fun b => b.u_v_inds) =
      some [(50, 50)]
    ∧ (SDLbuildInclude sdlCexCfg [(50, 50)]).map
        (fun b => intensityEntries b.params) =
      some [(((50 : ℤ), (50 : ℤ)), Parameter.init 7 none none)]
    ∧ sdlCexCfg.deleted (50, 50) := by
  refine ⟨rfl, rfl, ?_⟩
  left
  simp [sdlCexCfg]

/-!  ## C9: the coherent lattice's `(0,0)` phase clamp -/

open Classical in
theorem mem_keptBind {α : Type} (del : ℤ × ℤ → Prop) (f : ℤ × ℤ → List α)
    (l : List (ℤ × ℤ)) (a : α) :
    a ∈ keptBind del f l ↔ ∃ uv, uv ∈ l ∧ ¬ del uv ∧ a ∈ f uv := by
  rw [keptBind_eq_flatMap, List.mem_flatMap]
  constructor
  · rintro ⟨uv, hm, ha⟩
    rw [mem_pruneInds] at hm
    exact ⟨uv, hm.1, hm.2, ha⟩
  · rintro ⟨uv, h1, h2, h3⟩
    exact ⟨uv, (mem_pruneInds _ _ _).mpr ⟨h1, h2⟩, h3⟩

theorem zero_mem_candidatePairs (u_max v_max : ℕ) :
    ((0 : ℤ), (0 : ℤ)) ∈ candidatePairs u_max v_max := by
  rw [mem_candidatePairs]
  refine ⟨?_, ?_, ?_, ?_⟩ <;> simp

/-- **C9** (confirmed).  In every coherent kernel lattice whose `(0,0)` peak
survives pruning, the `(0,0)` Phase parameter is registered and is
constructed as `Parameter(0.0, 0.0, 0.0)`: lower and upper bound both exactly
zero (and so is its initial value) — the coherent phase reference. -/
theorem coherent_zero_phase_clamped (Nx Ny : ℕ) (cfg : KLatCfg)
    (kernel : Fin Nx × Fin Ny → ℂ) (h : ¬ cfg.deleted (0, 0)) :
    ((CKey.phase 0 0, Parameter.init 0 (some 0) (some 0)) ∈
        (COKDLbuild Nx Ny cfg kernel).params)
    ∧ (∀ P : Parameter,
        (CKey.phase 0 0, P) ∈ (COKDLbuild Nx Ny cfg kernel).params →
          P.lower_bound = ((0 : ℝ) : EReal) ∧ P.upper_bound = ((0 : ℝ) : EReal)
          ∧ P.initial_value = 0) := by
  have hparams : (COKDLbuild Nx Ny cfg kernel).params =
      [(CKey.ux, Parameter.init cfg.ux none none),
       (CKey.uy, Parameter.init cfg.uy none none),
       (CKey.vx, Parameter.init cfg.vx none none),
       (CKey.vy, Parameter.init cfg.vy none none)]
      ++ keptBind cfg.deleted
          (fun uv => [(CKey.intensity uv.1 uv.2,
              Parameter.init cfg.intensity_0 none none),
            (CKey.phase uv.1 uv.2, phaseParam uv.1 uv.2)])
          (candidatePairs cfg.u_max cfg.v_max) := rfl
  have hpp : phaseParam 0 0 = Parameter.init 0 (some 0) (some 0) := by
    rw [phaseParam, if_pos ⟨rfl, rfl⟩]
  constructor
  · rw [hparams, List.mem_append]
    right
    rw [mem_keptBind]
    refine ⟨(0, 0), zero_mem_candidatePairs cfg.u_max cfg.v_max, h, ?_⟩
    rw [← hpp]
    simp
  · intro P hP
    rw [hparams, List.mem_append] at hP
    rcases hP with hP | hP
    · simp at hP
    · rw [mem_keptBind] at hP
      obtain ⟨uv, _, _, hf⟩ := hP
      simp only [List.mem_cons, List.mem_singleton, Prod.mk.injEq,
        List.not_mem_nil, or_false] at hf
      rcases hf with ⟨hk, _⟩ | ⟨hk, hPe⟩
      · exact absurd hk (by simp)
      · obtain ⟨hu, hv⟩ := (CKey.phase.injEq _ _ _ _).mp hk.symm
        rw [hPe, hu, hv, hpp]
        exact ⟨rfl, rfl, rfl⟩

/-- Concrete configuration for the kernel-lattice witnesses and
counterexamples: a 1×1 pattern, `u_max = v_max = 0` (single candidate
`(0,0)`), global center `(0.5, 0.5)` inside the pattern, no exclusions. -/
def kCexCfg : KLatCfg :=
  { ux := 1, uy := 0, vx := 0, vy := 1, u_max := 0, v_max := 0,
    intensity_0 := 1, exclude_indices := [], global_x0 := 0.5,
    global_y0 := 0.5, Q_Nx := 1, Q_Ny := 1 }

theorem kCexCfg_keeps : ¬ kCexCfg.deleted (0, 0) := by
  rw [KLatCfg.deleted]
  intro hc
  rcases hc with hc | hc | hc | hc | hc
  · simp [kCexCfg] at hc
  all_goals (rw [kCexCfg] at hc; norm_num at hc)

/-- Witness for `coherent_zero_phase_clamped`: a concrete coherent kernel
lattice on a 1×1 pattern whose `(0,0)` peak is in bounds. -/
theorem coherent_zero_phase_clamped_witness :
    ((CKey.phase 0 0, Parameter.init 0 (some 0) (some 0)) ∈
        (COKDLbuild 1 1 kCexCfg (fun _ => 1)).params)
    ∧ (∀ P : Parameter,
        (CKey.phase 0 0, P) ∈ (COKDLbuild 1 1 kCexCfg (fun _ => 1)).params →
          P.lower_bound = ((0 : ℝ) : EReal) ∧ P.upper_bound = ((0 : ℝ) : EReal)
          ∧ P.initial_value = 0) :=
  coherent_zero_phase_clamped 1 1 kCexCfg (fun _ => 1) kCexCfg_keeps

/-!  ## 1×1 evaluation of the Fourier machinery -/

theorem fftfreq_one (k : Fin 1) : fftfreq 1 k = 0 := by
  have hk : (k : ℕ) = 0 := by omega
  rw [fftfreq, hk]
  norm_num

theorem sum_fin11 (f : Fin 1 × Fin 1 → ℂ) :
    ∑ x : Fin 1 × Fin 1, f x = f (0, 0) := by
  rw [Fintype.sum_prod_type]
  simp [Fin.sum_univ_one]

theorem dft2_one (f : Fin 1 × Fin 1 → ℂ) (k : Fin 1 × Fin 1) :
    dft2 1 1 f k = f (0, 0) := by
  rw [dft2, sum_fin11]
  norm_num

theorem idft2_one (F : Fin 1 × Fin 1 → ℂ) (n : Fin 1 × Fin 1) :
    idft2 1 1 F n = F (0, 0) := by
  rw [idft2, sum_fin11]
  norm_num

theorem shiftedKernelAbs_one (kFT : Fin 1 × Fin 1 → ℂ) (x y : ℝ)
    (p : Fin 1 × Fin 1) :
    shiftedKernelAbs kFT x y p = Complex.abs (kFT (0, 0)) := by
  rw [shiftedKernelAbs, idft2_one, fftfreq_one]
  norm_num

theorem shiftOne_cex (x y : ℝ) :
    shiftedKernelAbs (dft2 1 1 (fun _ => (1 : ℂ))) x y ((0 : Fin 1), (0 : Fin 1)) = 1 := by
  rw [shiftedKernelAbs_one, dft2_one]
  simp

/-!  ## C2 and C3: how the peak intensity enters the kernel lattices -/

/-- **C2** (corrected).  The incoherent kernel lattice's forward function adds
`Σ_peaks (intensity_peak · |shifted_kernel|)²` — since the squaring is applied
to the product, the intensity parameter enters **squared**
(`KDLM.contrib` is `Σ_peaks intensity_peak² · |shifted_kernel|²`), not
linearly as the claim states. -/
theorem kernel_lattice_contribution_squared_intensity {Nx Ny : ℕ}
    (m : KDLM Nx Ny) (args : ℕ → ℝ) (DP : Pattern Nx Ny) :
    m.local_center_func args DP = fun p => DP p + m.contrib args p :=
  KDL_func_eq_add_contrib m args DP

/-- **C2 counterexample**: on a 1×1 pattern with a trivial kernel
(`|shifted_kernel| = 1` everywhere) and peak intensity 2, the forward
function adds `(2·1)² = 4`, while the claimed formula
`Σ intensity · |shifted_kernel|²` gives `2`. -/
theorem kernel_lattice_linear_intensity_cex :
    (KDLbuild 1 1 kCexCfg (fun _ => 1)).local_center_func
        (fun n => if n = 0 then 0.5 else if n = 1 then 0.5
          else if n = 6 then 2 else 1)
        (fun _ => 0) ((0 : Fin 1), (0 : Fin 1)) = 4
    ∧ (KDLbuild 1 1 kCexCfg (fun _ => 1)).claimedContrib
        (fun n => if n = 0 then 0.5 else if n = 1 then 0.5
          else if n = 6 then 2 else 1)
        ((0 : Fin 1), (0 : Fin 1)) = 2
    ∧ (4 : ℝ) ≠ 2 := by
  have hpk : (KDLbuild 1 1 kCexCfg (fun _ => 1)).peaks = [(0, 0)] := by
    have hc : candidatePairs 0 0 = [(0, 0)] := rfl
    show pruneInds kCexCfg.deleted (candidatePairs 0 0) = [(0, 0)]
    rw [hc, pruneInds_cons, pruneInds_nil, if_neg kCexCfg_keeps]
    rfl
  refine ⟨?_, ?_, by norm_num⟩
  · rw [KDLM.local_center_func, hpk, KDLloop, KDLloop]
    rw [show (KDLbuild 1 1 kCexCfg (fun _ => 1)).probe_kernelFT =
      dft2 1 1 (fun _ => (1 : ℂ)) from rfl]
    rw [shiftOne_cex]
    norm_num
  · rw [KDLM.claimedContrib, hpk]
    rw [show (KDLbuild 1 1 kCexCfg (fun _ => 1)).probe_kernelFT =
      dft2 1 1 (fun _ => (1 : ℂ)) from rfl]
    simp only [List.enum, List.enumFrom, List.map_cons, List.map_nil,
      List.sum_cons, List.sum_nil]
    rw [shiftOne_cex]
    norm_num

/-- **C3** (corrected).  The coherent kernel lattice's forward function sums,
in the complex domain, the amplitudes
`intensity_peak · exp(i·phase_peak) · |shifted_kernel|` over all retained
peaks, and squares the magnitude exactly once after the sum
(`COKDLM.amplitudeSum`).  The amplitude carries the intensity parameter
itself, **not** its square root as the claim states. -/
theorem complex_kernel_amplitude_sum_then_square {Nx Ny : ℕ}
    (m : COKDLM Nx Ny) (args : ℕ → ℝ) (DP : Pattern Nx Ny) :
    m.local_center_func args DP =
      fun p => DP p + (Complex.abs (m.amplitudeSum args p)) ^ 2 :=
  COKDL_func_eq_add_contrib m args DP

/-- **C3 counterexample**: on a 1×1 pattern with a trivial kernel, a single
peak of intensity 4 and phase 0, the forward function adds
`|4·exp(0)·1|² = 16`, while the claimed amplitude `√4·exp(0)·1` would give
`|2|² = 4`. -/
theorem complex_kernel_sqrt_intensity_cex :
    (COKDLbuild 1 1 kCexCfg (fun _ => 1)).local_center_func
        (fun n => if n = 0 then 0.5 else if n = 1 then 0.5
          else if n = 6 then 4 else if n = 7 then 0 else 1)
        (fun _ => 0) ((0 : Fin 1), (0 : Fin 1)) = 16
    ∧ (COKDLbuild 1 1 kCexCfg (fun _ => 1)).claimedContrib
        (fun n => if n = 0 then 0.5 else if n = 1 then 0.5
          else if n = 6 then 4 else if n = 7 then 0 else 1)
        ((0 : Fin 1), (0 : Fin 1)) = 4
    ∧ (16 : ℝ) ≠ 4 := by
  have hpk : (COKDLbuild 1 1 kCexCfg (fun _ => 1)).peaks = [(0, 0)] := by
    have hc : candidatePairs 0 0 = [(0, 0)] := rfl
    show pruneInds kCexCfg.deleted (candidatePairs 0 0) = [(0, 0)]
    rw [hc, pruneInds_cons, pruneInds_nil, if_neg kCexCfg_keeps]
    rfl
  have hft : (COKDLbuild 1 1 kCexCfg (fun _ => 1)).probe_kernelFT =
      dft2 1 1 (fun _ => (1 : ℂ)) := rfl
  refine ⟨?_, ?_, by norm_num⟩
  · rw [COKDLM.local_center_func, hpk, COKDLloop, COKDLloop, hft]
    rw [shiftOne_cex]
    norm_num [Complex.exp_zero]
  · rw [COKDLM.claimedContrib, COKDLM.claimedAmplitudeSum, hpk, hft]
    simp only [List.enum, List.enumFrom, List.map_cons, List.map_nil,
      List.sum_cons, List.sum_nil]
    rw [shiftOne_cex]
    norm_num [Complex.exp_zero]

/-!  ## C5: the disk-lattice Jacobian against the true derivative -/

/-- **C5** (code_bug).  At the concrete single-peak configuration `sdlW` /
`sdW` / `xW` (peak intensity 2, radius 3, width 1, pixel at distance 3 from
the peak), the x-center column of the analytic Jacobian receives the value
`4` — the source adds `disk_intensity * dx` where the expression `dx`
(labeled `dF/d(x0)` in the source) already carries the intensity factor —
while the true partial derivative of the forward contribution with respect
to the x-center parameter (flat-vector entry 0) at this point is `2`.
So the analytic column is twice the derivative and no central
finite-difference estimate within a 1e-4 relative tolerance can match it. -/
theorem disk_lattice_jacobian_center_column_bug :
    (SDLM.jacobian sdlW sdW xW (fun _ => fun _ => 0)) 0 ((0 : Fin 1), (0 : Fin 1)) = 4
    ∧ HasDerivAt (fun t => SDLM.peakContrib sdlW sdW (Function.update xW 0 t) 0 0 6
        ((0 : Fin 1), (0 : Fin 1))) 2 0
    ∧ (4 : ℝ) ≠ 2 := by
  refine ⟨?_, ?_, by norm_num⟩
  · rw [SDLM.jacobian]
    rw [show sdlW.peaks = [(0, 0, 6)] from rfl]
    rw [SDLjacLoop, SDLjacLoop, SDLjacPeak]
    simp only [addCol, sdlW, sdW, xW, get_distance, SDLM.diskRadiusVal,
      SDLM.diskWidthVal]
    norm_num
    rw [show Real.sqrt 9 = 3 from by
      rw [show (9:ℝ) = 3 ^ 2 by norm_num, Real.sqrt_sq (by norm_num : (0:ℝ) ≤ 3)]]
    rw [show (1/2 : ℝ) ⊔ 3 = 3 from max_eq_right (by norm_num)]
    norm_num [addCol, Real.exp_zero]
  · have hev : (fun t => SDLM.peakContrib sdlW sdW (Function.update xW 0 t) 0 0 6
        ((0 : Fin 1), (0 : Fin 1)))
        =ᶠ[nhds 0] (fun t => 2 / (1 + Real.exp ((-4) * t))) := by
      refine Filter.eventuallyEq_of_mem
        (Ioo_mem_nhds (by norm_num) (by norm_num) : Set.Ioo (-1:ℝ) 1 ∈ nhds 0) ?_
      intro t ht
      obtain ⟨ht1, ht2⟩ := ht
      simp only [SDLM.peakContrib, sdlW, sdW, SDLM.diskRadiusVal,
        SDLM.diskWidthVal, Function.update, xW]
      norm_num
      rw [Real.sqrt_sq (by linarith : (0:ℝ) ≤ 3 - t)]
      rw [show (4 * (3 - t - 3) : ℝ) = -(4 * t) by ring]
      rw [min_eq_left (by linarith : -(4 * t) ≤ 20)]
    have hg : HasDerivAt (fun t : ℝ => 2 / (1 + Real.exp ((-4) * t))) 2 0 := by
      have h1 : HasDerivAt (fun t : ℝ => (-4) * t) (-4) 0 := by
        simpa using (hasDerivAt_id (0:ℝ)).const_mul (-4)
      have h2 : HasDerivAt (fun t : ℝ => Real.exp ((-4) * t)) (-4) 0 := by
        simpa [Real.exp_zero] using h1.exp
      have h3 : HasDerivAt (fun t : ℝ => 1 + Real.exp ((-4) * t)) (-4) 0 :=
        h2.const_add 1
      have h4 : HasDerivAt (fun t : ℝ => (1 + Real.exp ((-4) * t))⁻¹) 1 0 := by
        have h5 := h3.inv (by positivity)
        convert h5 using 1
        simp [Real.exp_zero]
        norm_num
      have h6 := h4.const_mul (2:ℝ)
      simpa [div_eq_mul_inv] using h6
    exact hg.congr_of_eventuallyEq hev

end WPF
